import Mathlib

/-!
# Inline cell editing for a table widget (`www/dataTables.cellEdit.js`)

A shallow embedding of the `MakeCellsEditable` plugin.  The plugin is event glue over a
table widget and a DOM, so the embedding is explicit state passing over a record `Table`
that holds

* the widget's data store (`data`) and its display renderer (`render`),
* the children of every body cell (`content`),
* the elements created so far (`controls`, addressed by position) together with the
  listeners bound on them,
* the element last given input focus by the plugin (`focused`),
* the click listeners registered on the table body (`listeners`), and
* the trace of calls made into the two caller-supplied callbacks (`log`).

The two closures of the source (`clickHandler`, the function bound on `click`, and
`commitHandler`, the function bound on `blur keydown`) are translated statement by
statement.  User input arrives as `Action`s and is dispatched by `step`.

Modelling conventions:

* Data values and editor values are strings.
* An editor factory is a function returning one newly built element.
* The table widget's `cell.data(v)` and `.draw()` follow the collaborator contract of the
  specification: a write to one data slot and a re-render of that one cell.
* Every event is an explicit `Action`.
* The call `editor.focus()` is given in two layers.  `focus` makes the editor the holder of the
  input focus; `takeFocus` also delivers the blur that the previous holder receives inside
  that call, so that its commit listeners run within the click.  `clickHandler` is written
  with the first and `clickHandlerTakingFocus` with the second; the two agree whenever no
  control holds the focus when the click arrives.
-/

namespace CellEdit

/-! ## Data model -/

/-- Cell data values and editor values. -/
abbrev Value := String

/-- Result of `cell.index()`. -/
structure Index where
  row : Nat
  column : Nat
deriving DecidableEq, Repr

/-- Cell reference, as returned by `table.cell(this)`. -/
structure Cell where
  index : Index
deriving DecidableEq, Repr

/-- Identity of a caller-supplied `onUpdate` function. -/
abbrev FnId := Nat

/-- DOM element as far as the plugin observes it: tag name, `type` attribute, current
value and class tokens. -/
structure Element where
  tag : String
  type : String
  value : Value
  classes : List String
deriving DecidableEq, Repr

/-- The `settings` argument; an absent key is `none`. -/
structure Settings where
  columns : Option (List Nat) := none
  inputCss : Option String := none
  getEditor : Option (Value → Cell → Nat → Element) := none
  onUpdate : Option FnId := none

/-- The merged options object `opts`. -/
structure Opts where
  inputCss : String
  onUpdate : Option FnId
  columns : Option (List Nat)
  getEditor : Option (Value → Cell → Nat → Element)

/-- Calls made into the caller-supplied callbacks, in order. -/
inductive Call where
  | getEditor (oldValue : Value) (cell : Cell) (colIdx : Nat)
  | onUpdate (fn : FnId) (cell : Cell) (rowIdx colIdx : Nat) (oldValue newValue : Value)
deriving DecidableEq, Repr

/-- Closure bound by `editor.on('blur keydown', ...)`: the variables it captures. -/
structure Handler where
  opts : Opts
  cell : Cell
  colIdx : Nat
  oldValue : Value
  editor : Nat

/-- Element created as an editor, with the listeners bound on it. -/
structure Control where
  elem : Element
  handlers : List Handler

/-- Child of a body cell: rendered text, or one of the created elements. -/
inductive Node where
  | text (s : String)
  | control (id : Nat)
deriving DecidableEq, Repr

/-- The table widget together with the part of the document the plugin touches. -/
structure Table where
  render : Value → String
  data : Cell → Value
  content : Cell → List Node
  controls : List Control
  focused : Option Nat
  listeners : List Opts
  log : List Call

/-- Kind of event delivered to an editor listener. -/
inductive EventType where
  | blur
  | keydown
deriving DecidableEq, Repr

/-- The event object `e` seen by the commit listener. -/
structure Event where
  type : EventType
  which : Nat
deriving DecidableEq, Repr

/-! ## Library primitives -/

/-- Search of `$.inArray`, counting positions from `i`. -/
def inArrayFrom (x : Nat) : List Nat → Nat → Int
  | [], _ => -1
  | y :: ys, i => if y = x then (i : Int) else inArrayFrom x ys (i + 1)

/-- Library call `$.inArray(x, arr)`: position of the first occurrence, or `-1`. -/
def inArray (x : Nat) (arr : List Nat) : Int := inArrayFrom x arr 0

/-- Library call `$.extend(defaults, settings)`: every key present in `settings` overrides. -/
def extend (d : Opts) (s : Settings) : Opts :=
  { inputCss := match s.inputCss with
      | some c => c
      | none => d.inputCss
    onUpdate := match s.onUpdate with
      | some f => some f
      | none => d.onUpdate
    columns := match s.columns with
      | some l => some l
      | none => d.columns
    getEditor := match s.getEditor with
      | some g => some g
      | none => d.getEditor }

/-- The literal `defaults` object. -/
def defaults : Opts :=
  { inputCss := "form-control input-sm", onUpdate := none, columns := none, getEditor := none }

/-- Split a class string at spaces, dropping empty tokens. -/
def classTokens : List Char → List Char → List String
  | [], cur => if cur = [] then [] else [String.mk cur.reverse]
  | c :: cs, cur =>
    if c = ' ' then
      (if cur = [] then classTokens cs [] else String.mk cur.reverse :: classTokens cs [])
    else classTokens cs (c :: cur)

/-- Add each token unless the element already carries it. -/
def addTokens : List String → List String → List String
  | cur, [] => cur
  | cur, c :: cs => if c ∈ cur then addTokens cur cs else addTokens (cur ++ [c]) cs

/-- The effect of `addClass(value)` on one element. -/
def Element.addClass (e : Element) (value : String) : Element :=
  { e with classes := addTokens e.classes (classTokens value.toList []) }

/-- The element built by `$('<input type="text"/>')`. -/
def inputText : Element :=
  { tag := "input", type := "text", value := "", classes := [] }

/-- The effect of `.val(v)` on one element. -/
def Element.setVal (e : Element) (v : Value) : Element :=
  { e with value := v }

/-- Apply `f` to the control at position `id`. -/
def modifyAt (f : Control → Control) : List Control → Nat → List Control
  | [], _ => []
  | c :: cs, 0 => f c :: cs
  | c :: cs, id + 1 => c :: modifyAt f cs id

/-- Place a new element in the document's pool; its id is its position. -/
def create (e : Element) (t : Table) : Nat × Table :=
  (t.controls.length, { t with controls := t.controls ++ [{ elem := e, handlers := [] }] })

/-- Record a call into a caller-supplied callback. -/
def logCall (c : Call) (t : Table) : Table :=
  { t with log := t.log ++ [c] }

/-- Library call `editor.addClass(value)`. -/
def addClass (editor : Nat) (value : String) (t : Table) : Table :=
  { t with controls := modifyAt (fun c => { c with elem := c.elem.addClass value }) t.controls editor }

/-- Does the node match the selector `'input, select'`? -/
def matchesInputSelect (t : Table) : Node → Bool
  | .text _ => false
  | .control id =>
    match t.controls[id]? with
    | some c => c.elem.tag == "input" || c.elem.tag == "select"
    | none => false

/-- Library call `$(this).find('input, select')`. -/
def find (t : Table) (this : Cell) : List Node :=
  (t.content this).filter (matchesInputSelect t)

/-- Listener clean-up that jQuery performs on removed elements. -/
def cleanData (removed : List Node) : List Control → Nat → List Control
  | [], _ => []
  | c :: cs, i =>
    (if Node.control i ∈ removed then { c with handlers := [] } else c)
      :: cleanData removed cs (i + 1)

/-- Library call `$(this).empty()`: remove all children, dropping the listeners bound on them. -/
def empty (this : Cell) (t : Table) : Table :=
  { t with
    controls := cleanData (t.content this) t.controls 0
    content := fun c => if c = this then [] else t.content c }

/-- Library call `$(this).append(editor)`. -/
def append (this : Cell) (editor : Nat) (t : Table) : Table :=
  { t with content := fun c => if c = this then t.content c ++ [Node.control editor] else t.content c }

/-- The part of `editor.focus()` that makes `editor` the holder of the input focus; the blur
that the previous holder receives is added by `takeFocus`. -/
def focus (editor : Nat) (t : Table) : Table :=
  { t with focused := some editor }

/-- Library call `editor.on('blur keydown', h)`. -/
def onBlurKeydown (editor : Nat) (h : Handler) (t : Table) : Table :=
  { t with controls := modifyAt (fun c => { c with handlers := c.handlers ++ [h] }) t.controls editor }

/-- Library call `editor.val()`: the current value, the empty string when there is no element. -/
def val (editor : Nat) (t : Table) : Value :=
  match t.controls[editor]? with
  | some c => c.elem.value
  | none => ""

/-- Modelled from the spec: the table widget is an external collaborator that provides
"get/set of a cell's data value"; this is the setter `cell.data(v)`. -/
def setData (cell : Cell) (v : Value) (t : Table) : Table :=
  { t with data := fun c => if c = cell then v else t.data c }

/-- Modelled from the spec: the table widget is an external collaborator that provides "a
re-render/redraw operation scoped to one cell"; the cell's children are replaced by the
display rendering of its data value. -/
def draw (cell : Cell) (t : Table) : Table :=
  { t with content := fun c => if c = cell then [Node.text (t.render (t.data cell))] else t.content c }

/-! ## The plugin -/

/-- The test `opts.columns && $.inArray(colIdx, opts.columns) === -1`. -/
def notEditable (opts : Opts) (colIdx : Nat) : Bool :=
  match opts.columns with
  | some columns => inArray colIdx columns == -1
  | none => false

/-- The function bound on `blur keydown` of an editor. -/
def commitHandler (h : Handler) (e : Event) (t : Table) : Table :=
  if e.type = EventType.keydown ∧ e.which ≠ 13 then t
  else
    let newValue := val h.editor t
    let t1 := draw h.cell (setData h.cell newValue t)
    match h.opts.onUpdate with
    | some fn =>
      let rowIdx := h.cell.index.row
      logCall (Call.onUpdate fn h.cell rowIdx h.colIdx h.oldValue newValue) t1
    | none => t1

/-- The function bound on `click` of `tbody td`, run with `this` the clicked cell. -/
def clickHandler (opts : Opts) (this : Cell) (t : Table) : Table :=
  let cell := this
  let colIdx := cell.index.column
  if notEditable opts colIdx then t
  else
    let oldValue := t.data cell
    if (find t this).length > 0 then t
    else
      let r := match opts.getEditor with
        | some getEditor =>
          create (getEditor oldValue cell colIdx) (logCall (Call.getEditor oldValue cell colIdx) t)
        | none => create (inputText.setVal oldValue) t
      let editor := r.1
      let t1 := addClass editor opts.inputCss r.2
      let t2 := append this editor (empty this t1)
      let t3 := focus editor t2
      onBlurKeydown editor
        { opts := opts, cell := cell, colIdx := colIdx, oldValue := oldValue, editor := editor } t3

/-- Handle on the element set the plugin method is called on. -/
structure JQuery where
  selector : String
deriving DecidableEq, Repr

/-- The plugin method `$.fn.MakeCellsEditable`: merge the options, register the click listener, return `this`. -/
def MakeCellsEditable (this : JQuery) (settings : Settings) (t : Table) : JQuery × Table :=
  let opts := extend defaults settings
  (this, { t with listeners := t.listeners ++ [opts] })

/-! ## Event delivery -/

/-- What the page and the user can do. -/
inductive Action where
  | attach (this : JQuery) (settings : Settings)
  | click (this : Cell)
  | type (editor : Nat) (v : Value)
  | blur (editor : Nat)
  | keydown (editor : Nat) (which : Nat)

/-- Listeners bound on a control. -/
def handlersOf (t : Table) (editor : Nat) : List Handler :=
  match t.controls[editor]? with
  | some c => c.handlers
  | none => []

/-- Deliver an event to a control: its listeners run in registration order. -/
def dispatch (editor : Nat) (e : Event) (t : Table) : Table :=
  (handlersOf t editor).foldl (fun acc h => commitHandler h e acc) t

/-- One action. -/
def step (a : Action) (t : Table) : Table :=
  match a with
  | .attach this settings => (MakeCellsEditable this settings t).2
  | .click this => t.listeners.foldl (fun acc opts => clickHandler opts this acc) t
  | .type editor v =>
    { t with controls := modifyAt (fun c => { c with elem := c.elem.setVal v }) t.controls editor }
  | .blur editor => dispatch editor { type := EventType.blur, which := 0 } t
  | .keydown editor which => dispatch editor { type := EventType.keydown, which := which } t

/-- A sequence of actions, oldest first. -/
def run (as : List Action) (t : Table) : Table :=
  as.foldl (fun acc a => step a acc) t

/-- A freshly drawn table: every cell shows its rendered data, nothing is attached. -/
def initial (render : Value → String) (data : Cell → Value) : Table :=
  { render := render
    data := data
    content := fun c => [Node.text (render (data c))]
    controls := []
    focused := none
    listeners := []
    log := [] }

/-- The cell holds an editor control. -/
def Editing (t : Table) (c : Cell) : Prop :=
  ∃ id, Node.control id ∈ t.content c ∧ id < t.controls.length

/-- The cell shows rendered content only. -/
def Display (t : Table) (c : Cell) : Prop :=
  ∀ id, Node.control id ∉ t.content c

/-- Number of editor controls among the children of a cell. -/
def editorCount (t : Table) (c : Cell) : Nat :=
  ((t.content c).filter (fun n => match n with
    | .control _ => true
    | .text _ => false)).length

/-- The element the click listener builds before styling it. -/
def editorElement (opts : Opts) (oldValue : Value) (cell : Cell) : Element :=
  match opts.getEditor with
  | some getEditor => getEditor oldValue cell cell.index.column
  | none => inputText.setVal oldValue

/-- The calls into the editor factory that one begun edit makes. -/
def factoryCalls (opts : Opts) (oldValue : Value) (cell : Cell) : List Call :=
  match opts.getEditor with
  | some _ => [Call.getEditor oldValue cell cell.index.column]
  | none => []

/-- The closure the click listener binds on the editor it created. -/
def handlerFor (opts : Opts) (this : Cell) (t : Table) : Handler :=
  { opts := opts, cell := this, colIdx := this.index.column, oldValue := t.data this,
    editor := t.controls.length }

/-- The calls into `onUpdate` that one commit makes. -/
def updateCalls (h : Handler) (newValue : Value) : List Call :=
  match h.opts.onUpdate with
  | some fn => [Call.onUpdate fn h.cell h.cell.index.row h.colIdx h.oldValue newValue]
  | none => []

/-- The table after a click that begins an edit on `this`. -/
def beginEdit (opts : Opts) (this : Cell) (t : Table) : Table :=
  { t with
    content := fun c => if c = this then [Node.control t.controls.length] else t.content c
    controls := cleanData (t.content this) t.controls 0 ++
      [{ elem := (editorElement opts (t.data this) this).addClass opts.inputCss
         handlers := [handlerFor opts this t] }]
    focused := some t.controls.length
    log := t.log ++ factoryCalls opts (t.data this) this }

/-- What commits on cell `A` may change: `A`'s data value, `A`'s content and the trace. -/
def CommitFrame (A : Cell) (t t1 : Table) : Prop :=
  t1.controls = t.controls ∧ t1.render = t.render ∧ t1.listeners = t.listeners ∧
  t1.focused = t.focused ∧
  ∀ B, B ≠ A → t1.data B = t.data B ∧ t1.content B = t.content B

/-- The table after attaching the same settings twice. -/
def attachTwice (this : JQuery) (settings : Settings) (t : Table) : Table :=
  run [Action.attach this settings, Action.attach this settings] t

/-! ## Concrete tables used to exercise the statements -/

/-- A cell in row 0, column 1. -/
def cellA : Cell := { index := { row := 0, column := 1 } }

/-- A cell in row 2, column 0. -/
def cellB : Cell := { index := { row := 2, column := 0 } }

/-- A freshly drawn table whose row `r` holds `"a"` (row 0) or `"z"` (other rows). -/
def freshTable : Table :=
  initial (fun v => v) (fun c => if c.index.row = 0 then "a" else "z")

/-- Settings with an update callback only. -/
def notifySettings : Settings := { onUpdate := some 7 }

/-- The table `freshTable` after one attach with `notifySettings`. -/
def notifyTable : Table := (MakeCellsEditable { selector := "#tbl" } notifySettings freshTable).2

/-- Editor factory producing a multi-line text area seeded with the old value. -/
def textareaFactory : Value → Cell → Nat → Element :=
  fun oldValue _ _ => { tag := "textarea", type := "", value := oldValue, classes := [] }

/-- Settings with the text-area factory and an update callback. -/
def textareaSettings : Settings := { getEditor := some textareaFactory, onUpdate := some 7 }

/-- The table in which a text-area editor is open in `cellA` and holds the typed value `"b"`. -/
def textareaOpen : Table :=
  run [Action.attach { selector := "#tbl" } textareaSettings, Action.click cellA,
    Action.type 0 "b"] freshTable

/-- The blur event a control receives when it loses the input focus. -/
def blurEvent : Event := { type := EventType.blur, which := 0 }

/-- Library call `editor.focus()` as the browser carries it out: the control that held the
input focus, when it is another one, first receives a blur, so the listeners bound on it run
inside this call; then `editor` holds the focus. -/
def takeFocus (editor : Nat) (t : Table) : Table :=
  match t.focused with
  | some old => if old = editor then focus editor t else focus editor (dispatch old blurEvent t)
  | none => focus editor t

/-- The function bound on `click` of `tbody td`, with the focus change made by
`editor.focus()` carried out in full by `takeFocus`. -/
def clickHandlerTakingFocus (opts : Opts) (this : Cell) (t : Table) : Table :=
  let cell := this
  let colIdx := cell.index.column
  if notEditable opts colIdx then t
  else
    let oldValue := t.data cell
    if (find t this).length > 0 then t
    else
      let r := match opts.getEditor with
        | some getEditor =>
          create (getEditor oldValue cell colIdx) (logCall (Call.getEditor oldValue cell colIdx) t)
        | none => create (inputText.setVal oldValue) t
      let editor := r.1
      let t1 := addClass editor opts.inputCss r.2
      let t2 := append this editor (empty this t1)
      let t3 := takeFocus editor t2
      onBlurKeydown editor
        { opts := opts, cell := cell, colIdx := colIdx, oldValue := oldValue, editor := editor } t3

/-- A click delivered to a body cell: the registered listeners run in registration order,
each one moving the input focus as the browser does. -/
def clickTakingFocus (this : Cell) (t : Table) : Table :=
  t.listeners.foldl (fun acc opts => clickHandlerTakingFocus opts this acc) t

/-- The table at the point where the click listener is about to call `editor.focus()`. -/
def staged (opts : Opts) (this : Cell) (t : Table) : Table :=
  { t with
    content := fun c => if c = this then [Node.control t.controls.length] else t.content c
    controls := cleanData (t.content this) t.controls 0 ++
      [{ elem := (editorElement opts (t.data this) this).addClass opts.inputCss
         handlers := [] }]
    log := t.log ++ factoryCalls opts (t.data this) this }

/-- Cell `B` is left alone between `t` and `t1`: same data value, same content, and every
control that existed in `t` still has the same element. -/
def KeepsCell (B : Cell) (t t1 : Table) : Prop :=
  t1.data B = t.data B ∧ t1.content B = t.content B ∧
  t.controls.length ≤ t1.controls.length ∧
  ∀ id, id < t.controls.length →
    (t1.controls[id]?).map (fun ctl => ctl.elem) = (t.controls[id]?).map (fun ctl => ctl.elem)

/-- The control holding the input focus, if any, has no commit listener bound for `B`. -/
def FocusAway (B : Cell) (t : Table) : Prop :=
  ∀ old, t.focused = some old → ∀ h ∈ handlersOf t old, h.cell ≠ B

/-- A cell in row 1, column 1. -/
def cellC : Cell := { index := { row := 1, column := 1 } }

/-- The table in which the editor of `cellB` is open, holds the typed value `"q"` and has
the input focus. -/
def neighbourOpen : Table :=
  step (Action.type 0 "q") (clickTakingFocus cellB notifyTable)

/-! ## Basic facts about the primitives -/

theorem inArrayFrom_nonneg_of_mem (x : Nat) (l : List Nat) (i : Nat) (h : x ∈ l) :
    0 ≤ inArrayFrom x l i := by
  induction l generalizing i with
  | nil => simp at h
  | cons y ys ih =>
    unfold inArrayFrom
    by_cases hy : y = x
    · simp [hy]
    · simp only [hy, if_false]
      rcases List.mem_cons.mp h with h1 | h1
      · exact absurd h1.symm hy
      · exact ih (i + 1) h1

theorem inArrayFrom_of_not_mem (x : Nat) (l : List Nat) (i : Nat) (h : x ∉ l) :
    inArrayFrom x l i = -1 := by
  induction l generalizing i with
  | nil => rfl
  | cons y ys ih =>
    unfold inArrayFrom
    have hy : y ≠ x := fun e => h (by simp [e])
    have hys : x ∉ ys := fun e => h (List.mem_cons_of_mem _ e)
    simp only [hy, if_false]
    exact ih (i + 1) hys

theorem inArray_eq_neg_one_iff (x : Nat) (l : List Nat) : inArray x l = -1 ↔ x ∉ l := by
  constructor
  · intro h hm
    have := inArrayFrom_nonneg_of_mem x l 0 hm
    unfold inArray at h
    omega
  · intro h
    exact inArrayFrom_of_not_mem x l 0 h

theorem notEditable_iff (opts : Opts) (colIdx : Nat) :
    notEditable opts colIdx = true ↔ ∃ l, opts.columns = some l ∧ colIdx ∉ l := by
  unfold notEditable
  cases hc : opts.columns with
  | none => simp
  | some l => simp [inArray_eq_neg_one_iff]

theorem modifyAt_append_last (f : Control → Control) (l : List Control) (x : Control) :
    modifyAt f (l ++ [x]) l.length = l ++ [f x] := by
  induction l with
  | nil => rfl
  | cons c cs ih => simp [modifyAt, ih]

theorem cleanData_length (r : List Node) (l : List Control) (i : Nat) :
    (cleanData r l i).length = l.length := by
  induction l generalizing i with
  | nil => rfl
  | cons c cs ih => simp [cleanData, ih]

theorem cleanData_map_elem (r : List Node) (l : List Control) (i : Nat) :
    (cleanData r l i).map (fun c => c.elem) = l.map (fun c => c.elem) := by
  induction l generalizing i with
  | nil => rfl
  | cons c cs ih =>
    simp only [cleanData, List.map_cons, ih]
    split <;> rfl

theorem cleanData_append_fresh (r : List Node) (l : List Control) (e : Element) (i : Nat) :
    cleanData r (l ++ [{ elem := e, handlers := [] }]) i
      = cleanData r l i ++ [{ elem := e, handlers := [] }] := by
  induction l generalizing i with
  | nil => simp [cleanData]
  | cons c cs ih => simp [cleanData, ih]

theorem cleanData_of_no_control (r : List Node) (hr : ∀ id, Node.control id ∉ r)
    (l : List Control) (i : Nat) : cleanData r l i = l := by
  induction l generalizing i with
  | nil => rfl
  | cons c cs ih => simp [cleanData, hr, ih]

theorem find_eq_nil_of_display (t : Table) (c : Cell) (h : Display t c) : find t c = [] := by
  unfold find
  rw [List.filter_eq_nil_iff]
  intro n hn
  cases n with
  | text s => simp [matchesInputSelect]
  | control id => exact absurd hn (h id)

/-- Closed form of a click that begins an edit. -/
theorem clickHandler_begin (opts : Opts) (this : Cell) (t : Table)
    (hcol : notEditable opts this.index.column = false) (hfind : find t this = []) :
    clickHandler opts this t =
      { t with
        content := fun c => if c = this then [Node.control t.controls.length] else t.content c
        controls := cleanData (t.content this) t.controls 0 ++
          [{ elem := (editorElement opts (t.data this) this).addClass opts.inputCss
             handlers := [handlerFor opts this t] }]
        focused := some t.controls.length
        log := t.log ++ factoryCalls opts (t.data this) this } := by
  unfold clickHandler
  simp only [hcol, hfind, List.length_nil, gt_iff_lt, lt_self_iff_false, if_false]
  have hlen : t.controls.length = (cleanData (t.content this) t.controls 0).length :=
    (cleanData_length _ _ _).symm
  have hcontent : (fun c => if c = this then
        (if c = this then [] else t.content c) ++ [Node.control t.controls.length]
      else if c = this then [] else t.content c)
      = fun c => if c = this then [Node.control t.controls.length] else t.content c := by
    funext c
    by_cases hc : c = this <;> simp [hc]
  cases hg : opts.getEditor with
  | none =>
    simp only [create, addClass, empty, append, focus, onBlurKeydown, editorElement,
      factoryCalls, handlerFor, hg, modifyAt_append_last, cleanData_append_fresh, hcontent,
      List.append_nil]
    rw [hlen, modifyAt_append_last]
    simp
  | some g =>
    simp only [create, addClass, empty, append, focus, onBlurKeydown, editorElement,
      factoryCalls, handlerFor, hg, modifyAt_append_last, cleanData_append_fresh, hcontent,
      logCall]
    rw [hlen, modifyAt_append_last]
    simp

/-- Closed form of a commit (blur, or keydown with key code 13). -/
theorem commitHandler_commit (h : Handler) (e : Event) (t : Table)
    (he : ¬ (e.type = EventType.keydown ∧ e.which ≠ 13)) :
    commitHandler h e t =
      { t with
        data := fun c => if c = h.cell then val h.editor t else t.data c
        content := fun c =>
          if c = h.cell then [Node.text (t.render (val h.editor t))] else t.content c
        log := t.log ++ updateCalls h (val h.editor t) } := by
  unfold commitHandler
  rw [if_neg he]
  cases hu : h.opts.onUpdate with
  | none => simp [draw, setData, updateCalls, hu]
  | some fn => simp [draw, setData, updateCalls, hu, logCall]

theorem commitHandler_ignore (h : Handler) (e : Event) (t : Table)
    (he : e.type = EventType.keydown ∧ e.which ≠ 13) : commitHandler h e t = t := by
  unfold commitHandler
  rw [if_pos he]

theorem getElem?_append_last (l : List Control) (x : Control) :
    (l ++ [x])[l.length]? = some x := by
  simp

/-- A click on a cell showing rendered content only, in an editable column. -/
theorem clickHandler_display (opts : Opts) (this : Cell) (t : Table)
    (hcol : notEditable opts this.index.column = false) (hd : Display t this) :
    clickHandler opts this t =
      { t with
        content := fun c => if c = this then [Node.control t.controls.length] else t.content c
        controls := t.controls ++
          [{ elem := (editorElement opts (t.data this) this).addClass opts.inputCss
             handlers := [handlerFor opts this t] }]
        focused := some t.controls.length
        log := t.log ++ factoryCalls opts (t.data this) this } := by
  rw [clickHandler_begin opts this t hcol (find_eq_nil_of_display t this hd),
    cleanData_of_no_control _ hd]

/-- Typing into the editor created last, followed by a blur on it. -/
theorem type_blur_last (l : List Control) (e : Element) (h : Handler) (v2 : Value) (t : Table)
    (ht : t.controls = l ++ [{ elem := e, handlers := [h] }]) (he : h.editor = l.length) :
    run [Action.type l.length v2, Action.blur l.length] t =
      { t with
        data := fun c => if c = h.cell then v2 else t.data c
        content := fun c => if c = h.cell then [Node.text (t.render v2)] else t.content c
        controls := l ++ [{ elem := e.setVal v2, handlers := [h] }]
        log := t.log ++ updateCalls h v2 } := by
  have hb : ¬ (({ type := EventType.blur, which := 0 } : Event).type = EventType.keydown
      ∧ ({ type := EventType.blur, which := 0 } : Event).which ≠ 13) := by
    simp
  simp only [run, List.foldl_cons, List.foldl_nil, step, ht, modifyAt_append_last, dispatch,
    handlersOf, getElem?_append_last, commitHandler_commit _ _ _ hb, val, he, Element.setVal]

theorem clickHandler_eq_beginEdit (opts : Opts) (this : Cell) (t : Table)
    (hcol : notEditable opts this.index.column = false) (hfind : find t this = []) :
    clickHandler opts this t = beginEdit opts this t :=
  clickHandler_begin opts this t hcol hfind

theorem clickHandler_of_find (opts : Opts) (this : Cell) (t : Table) (hfind : find t this ≠ []) :
    clickHandler opts this t = t := by
  unfold clickHandler
  have hpos : (find t this).length > 0 := List.length_pos.mpr hfind
  simp only [hpos, if_true]
  split <;> rfl

theorem commitFrame_refl (A : Cell) (t : Table) : CommitFrame A t t :=
  ⟨rfl, rfl, rfl, rfl, fun _ _ => ⟨rfl, rfl⟩⟩

theorem commitFrame_trans {A : Cell} {t t1 t2 : Table} (h1 : CommitFrame A t t1)
    (h2 : CommitFrame A t1 t2) : CommitFrame A t t2 := by
  obtain ⟨a1, b1, c1, d1, e1⟩ := h1
  obtain ⟨a2, b2, c2, d2, e2⟩ := h2
  refine ⟨a2.trans a1, b2.trans b1, c2.trans c1, d2.trans d1, ?_⟩
  intro B hB
  exact ⟨(e2 B hB).1.trans (e1 B hB).1, (e2 B hB).2.trans (e1 B hB).2⟩

theorem commitHandler_frame (h : Handler) (e : Event) (t : Table) :
    CommitFrame h.cell t (commitHandler h e t) := by
  by_cases he : e.type = EventType.keydown ∧ e.which ≠ 13
  · rw [commitHandler_ignore h e t he]
    exact commitFrame_refl _ t
  · rw [commitHandler_commit h e t he]
    refine ⟨rfl, rfl, rfl, rfl, ?_⟩
    intro B hB
    simp [hB]

theorem commit_foldl_frame (A : Cell) (e : Event) (hs : List Handler)
    (hA : ∀ h ∈ hs, h.cell = A) (t : Table) :
    CommitFrame A t (hs.foldl (fun acc h => commitHandler h e acc) t) := by
  induction hs generalizing t with
  | nil => exact commitFrame_refl A t
  | cons h hs ih =>
    simp only [List.foldl_cons]
    have hh : h.cell = A := hA h (List.mem_cons_self _ _)
    have h1 : CommitFrame A t (commitHandler h e t) := by
      have := commitHandler_frame h e t
      rwa [hh] at this
    exact commitFrame_trans h1 (ih (fun x hx => hA x (List.mem_cons_of_mem _ hx)) _)

theorem addClass_tag (e : Element) (value : String) : (e.addClass value).tag = e.tag := rfl

theorem find_beginEdit_of_tag (opts : Opts) (this : Cell) (t : Table)
    (htag : (editorElement opts (t.data this) this).tag = "input"
      ∨ (editorElement opts (t.data this) this).tag = "select") :
    find (beginEdit opts this t) this = [Node.control t.controls.length] := by
  have hlen : t.controls.length = (cleanData (t.content this) t.controls 0).length :=
    (cleanData_length _ _ _).symm
  have hget : (cleanData (t.content this) t.controls 0 ++
      [({ elem := (editorElement opts (t.data this) this).addClass opts.inputCss
          handlers := [handlerFor opts this t] } : Control)])[t.controls.length]?
      = some { elem := (editorElement opts (t.data this) this).addClass opts.inputCss
               handlers := [handlerFor opts this t] } := by
    rw [hlen, getElem?_append_last]
  rcases htag with h | h
  · simp [find, beginEdit, matchesInputSelect, hget, addClass_tag, h]
  · simp [find, beginEdit, matchesInputSelect, hget, addClass_tag, h]

/-- Typing, Enter and then a blur on the editor created last. -/
theorem type_enter_blur_last (l : List Control) (e : Element) (h : Handler) (v : Value)
    (t : Table) (ht : t.controls = l ++ [{ elem := e, handlers := [h] }])
    (he : h.editor = l.length) :
    run [Action.type l.length v, Action.keydown l.length 13, Action.blur l.length] t =
      { t with
        data := fun c => if c = h.cell then v else t.data c
        content := fun c => if c = h.cell then [Node.text (t.render v)] else t.content c
        controls := l ++ [{ elem := e.setVal v, handlers := [h] }]
        log := t.log ++ updateCalls h v ++ updateCalls h v } := by
  have hb : ¬ (({ type := EventType.blur, which := 0 } : Event).type = EventType.keydown
      ∧ ({ type := EventType.blur, which := 0 } : Event).which ≠ 13) := by
    simp
  have hk : ¬ (({ type := EventType.keydown, which := 13 } : Event).type = EventType.keydown
      ∧ ({ type := EventType.keydown, which := 13 } : Event).which ≠ 13) := by
    simp
  simp only [run, List.foldl_cons, List.foldl_nil, step, ht, modifyAt_append_last, dispatch,
    handlersOf, getElem?_append_last, commitHandler_commit _ _ _ hb,
    commitHandler_commit _ _ _ hk, val, he, Element.setVal]
  congr 1
  funext c
  by_cases hc : c = h.cell <;> simp [hc]
  funext c
  by_cases hc : c = h.cell <;> simp [hc]

theorem keepsCell_refl (B : Cell) (t : Table) : KeepsCell B t t :=
  ⟨rfl, rfl, le_refl _, fun _ _ => rfl⟩

theorem keepsCell_trans {B : Cell} {t t1 t2 : Table} (h1 : KeepsCell B t t1)
    (h2 : KeepsCell B t1 t2) : KeepsCell B t t2 := by
  obtain ⟨a1, b1, c1, d1⟩ := h1
  obtain ⟨a2, b2, c2, d2⟩ := h2
  refine ⟨a2.trans a1, b2.trans b1, le_trans c1 c2, ?_⟩
  intro id hid
  rw [d2 id (lt_of_lt_of_le hid c1), d1 id hid]

theorem commit_foldl_away (B : Cell) (e : Event) (hs : List Handler)
    (hB : ∀ h ∈ hs, h.cell ≠ B) (t : Table) :
    (hs.foldl (fun acc h => commitHandler h e acc) t).controls = t.controls ∧
    (hs.foldl (fun acc h => commitHandler h e acc) t).data B = t.data B ∧
    (hs.foldl (fun acc h => commitHandler h e acc) t).content B = t.content B := by
  induction hs generalizing t with
  | nil => exact ⟨rfl, rfl, rfl⟩
  | cons h hs ih =>
    simp only [List.foldl_cons]
    obtain ⟨a, _, _, _, d⟩ := commitHandler_frame h e t
    have hne : B ≠ h.cell := fun hEq => hB h (List.mem_cons_self _ _) hEq.symm
    obtain ⟨i1, i2, i3⟩ := ih (fun x hx => hB x (List.mem_cons_of_mem _ hx)) (commitHandler h e t)
    exact ⟨i1.trans a, i2.trans (d B hne).1, i3.trans (d B hne).2⟩

theorem cleanData_getElem_handlers (r : List Node) (l : List Control) (i k : Nat) (c : Control)
    (hc : (cleanData r l i)[k]? = some c) :
    ∃ c0, l[k]? = some c0 ∧ ∀ h ∈ c.handlers, h ∈ c0.handlers := by
  induction l generalizing i k with
  | nil => simp [cleanData] at hc
  | cons x xs ih =>
    cases k with
    | zero =>
      simp only [cleanData, List.getElem?_cons_zero, Option.some.injEq] at hc
      refine ⟨x, by simp, ?_⟩
      intro h hh
      rw [← hc] at hh
      split at hh
      · simp at hh
      · exact hh
    | succ j =>
      simp only [cleanData, List.getElem?_cons_succ] at hc
      obtain ⟨c0, h0, h1⟩ := ih (i + 1) j hc
      exact ⟨c0, by simpa using h0, h1⟩

theorem handlersOf_staged (opts : Opts) (this : Cell) (t : Table) (old : Nat) :
    ∀ h ∈ handlersOf (staged opts this t) old, h ∈ handlersOf t old := by
  intro h hh
  unfold handlersOf at hh
  simp only [staged] at hh
  by_cases hlt : old < (cleanData (t.content this) t.controls 0).length
  · rw [List.getElem?_append_left hlt] at hh
    cases hget : (cleanData (t.content this) t.controls 0)[old]? with
    | none => simp [hget] at hh
    | some c =>
      rw [hget] at hh
      obtain ⟨c0, h0, h1⟩ := cleanData_getElem_handlers _ _ _ _ _ hget
      simp only [handlersOf, h0]
      exact h1 h hh
  · have hge : (cleanData (t.content this) t.controls 0).length ≤ old := Nat.le_of_not_lt hlt
    rw [List.getElem?_append_right hge] at hh
    cases hk : old - (cleanData (t.content this) t.controls 0).length with
    | zero => simp [hk] at hh
    | succ j => simp [hk] at hh

theorem takeFocus_spec (B : Cell) (editor : Nat) (s : Table)
    (hs : ∀ old, s.focused = some old → ∀ h ∈ handlersOf s old, h.cell ≠ B) :
    (takeFocus editor s).controls = s.controls ∧
    (takeFocus editor s).data B = s.data B ∧
    (takeFocus editor s).content B = s.content B ∧
    (takeFocus editor s).focused = some editor := by
  unfold takeFocus
  cases hf : s.focused with
  | none => exact ⟨rfl, rfl, rfl, rfl⟩
  | some old =>
    by_cases ho : old = editor
    · simp only [ho, if_true]
      exact ⟨rfl, rfl, rfl, rfl⟩
    · simp only [ho, if_false]
      obtain ⟨a, b, c⟩ := commit_foldl_away B blurEvent (handlersOf s old) (hs old hf) s
      exact ⟨a, b, c, rfl⟩

theorem clickHandlerTakingFocus_cases (opts : Opts) (this : Cell) (t : Table) :
    clickHandlerTakingFocus opts this t = t ∨
      clickHandlerTakingFocus opts this t
        = onBlurKeydown t.controls.length (handlerFor opts this t)
            (takeFocus t.controls.length (staged opts this t)) := by
  by_cases hcol : notEditable opts this.index.column = true
  · left
    unfold clickHandlerTakingFocus
    simp [hcol]
  · by_cases hfind : find t this = []
    · right
      have hcol1 : notEditable opts this.index.column = false := by simpa using hcol
      have hcontent : (fun c => if c = this then
            (if c = this then [] else t.content c) ++ [Node.control t.controls.length]
          else if c = this then [] else t.content c)
          = fun c => if c = this then [Node.control t.controls.length] else t.content c := by
        funext c
        by_cases hc : c = this <;> simp [hc]
      unfold clickHandlerTakingFocus
      simp only [hcol1, hfind, List.length_nil, gt_iff_lt, lt_self_iff_false, if_false]
      cases hg : opts.getEditor with
      | none =>
        simp only [create, addClass, empty, append, editorElement, factoryCalls, handlerFor,
          staged, hg, modifyAt_append_last, cleanData_append_fresh, hcontent, List.append_nil]
        rfl
      | some g =>
        simp only [create, addClass, empty, append, editorElement, factoryCalls, handlerFor,
          staged, hg, modifyAt_append_last, cleanData_append_fresh, hcontent, logCall]
        rfl
    · left
      unfold clickHandlerTakingFocus
      have hpos : (find t this).length > 0 := List.length_pos.mpr hfind
      simp only [hpos, if_true]
      split <;> rfl

/-- When no control holds the input focus, the listener with the full focus change is the
listener `clickHandler`. -/
theorem clickHandlerTakingFocus_of_no_focus (opts : Opts) (this : Cell) (t : Table)
    (hf : t.focused = none) :
    clickHandlerTakingFocus opts this t = clickHandler opts this t := by
  cases hg : opts.getEditor with
  | none =>
    simp [clickHandlerTakingFocus, clickHandler, takeFocus, append, empty, addClass, create, hf,
      hg]
  | some g =>
    simp [clickHandlerTakingFocus, clickHandler, takeFocus, append, empty, addClass, create,
      logCall, hf, hg]

theorem clickHandlerTakingFocus_keeps (opts : Opts) (A B : Cell) (t : Table) (hAB : A ≠ B)
    (hf : FocusAway B t) :
    KeepsCell B t (clickHandlerTakingFocus opts A t) ∧
    FocusAway B (clickHandlerTakingFocus opts A t) := by
  rcases clickHandlerTakingFocus_cases opts A t with h | h
  · rw [h]
    exact ⟨keepsCell_refl B t, hf⟩
  · rw [h]
    have hBA : B ≠ A := fun hEq => hAB hEq.symm
    have hs : ∀ old, (staged opts A t).focused = some old →
        ∀ x ∈ handlersOf (staged opts A t) old, x.cell ≠ B := by
      intro old hold x hx
      exact hf old hold x (handlersOf_staged opts A t old x hx)
    obtain ⟨f1, f2, f3, f4⟩ := takeFocus_spec B t.controls.length (staged opts A t) hs
    have hlen : t.controls.length = (cleanData (t.content A) t.controls 0).length :=
      (cleanData_length _ _ _).symm
    have hctl : (onBlurKeydown t.controls.length (handlerFor opts A t)
        (takeFocus t.controls.length (staged opts A t))).controls
        = cleanData (t.content A) t.controls 0 ++
          [{ elem := (editorElement opts (t.data A) A).addClass opts.inputCss
             handlers := [handlerFor opts A t] }] := by
      have hon : (onBlurKeydown t.controls.length (handlerFor opts A t)
          (takeFocus t.controls.length (staged opts A t))).controls
          = modifyAt (fun c => { c with handlers := c.handlers ++ [handlerFor opts A t] })
              (takeFocus t.controls.length (staged opts A t)).controls t.controls.length := rfl
      rw [hon, f1]
      simp only [staged]
      rw [hlen, modifyAt_append_last]
      simp
    refine ⟨⟨?_, ?_, ?_, ?_⟩, ?_⟩
    · show (takeFocus t.controls.length (staged opts A t)).data B = t.data B
      rw [f2]
      rfl
    · show (takeFocus t.controls.length (staged opts A t)).content B = t.content B
      rw [f3]
      simp [staged, hBA]
    · rw [hctl]
      simp [cleanData_length]
    · intro id hid
      have hid1 : id < (cleanData (t.content A) t.controls 0).length := by
        rw [cleanData_length]
        exact hid
      rw [hctl, List.getElem?_append_left hid1, ← List.getElem?_map, ← List.getElem?_map,
        cleanData_map_elem]
    · intro old hold x hx
      have hfoc : (onBlurKeydown t.controls.length (handlerFor opts A t)
          (takeFocus t.controls.length (staged opts A t))).focused = some t.controls.length := f4
      rw [hfoc] at hold
      have hold1 : old = t.controls.length := (Option.some.inj hold).symm
      unfold handlersOf at hx
      rw [hctl, hold1, hlen, getElem?_append_last] at hx
      simp only [List.mem_singleton] at hx
      rw [hx]
      exact hAB

theorem click_foldl_keeps (A B : Cell) (hAB : A ≠ B) (l : List Opts) (t : Table)
    (hf : FocusAway B t) :
    KeepsCell B t (l.foldl (fun acc opts => clickHandlerTakingFocus opts A acc) t) := by
  induction l generalizing t with
  | nil => exact keepsCell_refl B t
  | cons o os ih =>
    simp only [List.foldl_cons]
    obtain ⟨k1, k2⟩ := clickHandlerTakingFocus_keeps o A B t hAB hf
    exact keepsCell_trans k1 (ih _ k2)

/-! ## Claims -/

/-- C1 (round-trip on commit): with one listener attached, for a cell in an editable column
that shows rendered content and has data value `t.data c`, a click begins an edit; setting the
editor's value to any `v2` and delivering a blur leaves the cell's data value equal to `v2`
and its content re-rendered from `v2`; when `onUpdate` is configured it is called exactly
once, with `(cell, row, column, old value, v2)`, and when it is not configured the data write
still happens and no call is made. -/
theorem commit_round_trip (opts : Opts) (c : Cell) (t : Table) (v2 : Value)
    (hl : t.listeners = [opts]) (hcol : notEditable opts c.index.column = false)
    (hd : Display t c) :
    Editing (step (Action.click c) t) c ∧
    (run [Action.click c, Action.type t.controls.length v2, Action.blur t.controls.length] t).data c
      = v2 ∧
    (run [Action.click c, Action.type t.controls.length v2, Action.blur t.controls.length] t).content c
      = [Node.text (t.render v2)] ∧
    (∀ fn, opts.onUpdate = some fn →
      (run [Action.click c, Action.type t.controls.length v2, Action.blur t.controls.length] t).log
        = (step (Action.click c) t).log
            ++ [Call.onUpdate fn c c.index.row c.index.column (t.data c) v2]) ∧
    (opts.onUpdate = none →
      (run [Action.click c, Action.type t.controls.length v2, Action.blur t.controls.length] t).log
        = (step (Action.click c) t).log) := by
  have hclick : step (Action.click c) t = clickHandler opts c t := by
    simp [step, hl]
  have hrun : run [Action.click c, Action.type t.controls.length v2,
      Action.blur t.controls.length] t
      = run [Action.type t.controls.length v2, Action.blur t.controls.length]
          (step (Action.click c) t) := rfl
  rw [hrun, hclick, clickHandler_display opts c t hcol hd]
  rw [type_blur_last t.controls _ (handlerFor opts c t) v2 _ rfl rfl]
  refine ⟨⟨t.controls.length, ?_, ?_⟩, ?_, ?_, ?_, ?_⟩
  · simp
  · simp
  · simp [handlerFor]
  · simp [handlerFor]
  · intro fn hfn
    simp [updateCalls, handlerFor, hfn]
  · intro hnone
    simp [updateCalls, handlerFor, hnone]

theorem commit_round_trip_witness :
    (run [Action.click cellA, Action.type 0 "", Action.blur 0] notifyTable).data cellA = "" ∧
    (run [Action.click cellA, Action.type 0 "", Action.blur 0] notifyTable).log
      = [Call.onUpdate 7 cellA 0 1 "a" ""] :=
  have h := commit_round_trip (extend defaults notifySettings) cellA notifyTable "" rfl rfl
    (by intro id hmem; simp [notifyTable, MakeCellsEditable, freshTable, initial] at hmem)
  ⟨h.2.1, h.2.2.2.1 7 rfl⟩

/-- C2 (column gating): whenever an editable-columns sequence is configured (the empty one
included) and the clicked cell's column index is not a member of it, the click listener
returns the table state unchanged, so no editor control is created, neither callback is
called, and every data value and every cell's content is as before; the same holds for a
click delivered after attaching that configuration to a table without other listeners. -/
theorem column_gating (settings : Settings) (columns : List Nat) (c : Cell) (t : Table)
    (this : JQuery) (hs : settings.columns = some columns) (hc : c.index.column ∉ columns) :
    clickHandler (extend defaults settings) c t = t ∧
    (t.listeners = [] →
      run [Action.attach this settings, Action.click c] t = step (Action.attach this settings) t) := by
  have hne : notEditable (extend defaults settings) c.index.column = true := by
    rw [notEditable_iff]
    exact ⟨columns, by simp [extend, hs], hc⟩
  have hno : ∀ t1 : Table, clickHandler (extend defaults settings) c t1 = t1 := by
    intro t1
    unfold clickHandler
    simp [hne]
  refine ⟨hno t, ?_⟩
  intro hl
  simp [run, step, MakeCellsEditable, hl, hno]

theorem column_gating_witness :
    clickHandler (extend defaults { columns := some [] }) cellA freshTable = freshTable ∧
    (freshTable.listeners = [] →
      run [Action.attach { selector := "#tbl" } { columns := some [] }, Action.click cellA] freshTable
        = step (Action.attach { selector := "#tbl" } { columns := some [] }) freshTable) :=
  column_gating { columns := some [] } [] cellA freshTable { selector := "#tbl" } rfl (by simp)

/-- C4 (Enter-only key filtering): a key event whose key code is not 13 leaves the whole
table state as it was (the cell stays as it is, data value and editor value unchanged, no
callback called), both for a single commit listener and for delivery to an editor; a key
event with key code 13 produces exactly the state a blur on the same editor produces, the
trace of `onUpdate` calls included. -/
theorem enter_only_key_filtering (editor which : Nat) (t : Table) (hw : which ≠ 13) :
    (∀ h : Handler, commitHandler h { type := EventType.keydown, which := which } t = t) ∧
    step (Action.keydown editor which) t = t ∧
    (∀ h : Handler, commitHandler h { type := EventType.keydown, which := 13 } t
      = commitHandler h { type := EventType.blur, which := 0 } t) ∧
    step (Action.keydown editor 13) t = step (Action.blur editor) t := by
  have hign : ∀ (h : Handler) (t1 : Table),
      commitHandler h { type := EventType.keydown, which := which } t1 = t1 := by
    intro h t1
    exact commitHandler_ignore h _ t1 ⟨rfl, hw⟩
  have hsame : ∀ (h : Handler) (t1 : Table),
      commitHandler h { type := EventType.keydown, which := 13 } t1
        = commitHandler h { type := EventType.blur, which := 0 } t1 := by
    intro h t1
    rw [commitHandler_commit h _ t1 (by simp), commitHandler_commit h _ t1 (by simp)]
  refine ⟨fun h => hign h t, ?_, fun h => hsame h t, ?_⟩
  · simp only [step, dispatch]
    generalize handlersOf t editor = hs
    induction hs generalizing t with
    | nil => rfl
    | cons h hs ih => simp [List.foldl_cons, hign, ih]
  · have hfun : (fun (acc : Table) (h : Handler) =>
        commitHandler h { type := EventType.keydown, which := 13 } acc)
        = fun acc h => commitHandler h { type := EventType.blur, which := 0 } acc := by
      funext acc h
      exact hsame h acc
    simp only [step, dispatch, hfun]

theorem enter_only_key_filtering_witness :
    step (Action.keydown 0 65) (run [Action.click cellA, Action.type 0 "b"] notifyTable)
      = run [Action.click cellA, Action.type 0 "b"] notifyTable ∧
    step (Action.keydown 0 13) (run [Action.click cellA, Action.type 0 "b"] notifyTable)
      = step (Action.blur 0) (run [Action.click cellA, Action.type 0 "b"] notifyTable) :=
  have h := enter_only_key_filtering 0 65
    (run [Action.click cellA, Action.type 0 "b"] notifyTable) (by decide)
  ⟨h.2.1, h.2.2.2⟩

/-- C8 (attach): the plugin method returns the very handle it was called on, and the table
state it leaves differs from the one it found only by one more registered click listener,
holding the merged options: data values, cell contents, created controls, focus and the
trace of callback calls are untouched. -/
theorem attach_returns_this (this : JQuery) (settings : Settings) (t : Table) :
    (MakeCellsEditable this settings t).1 = this ∧
    (MakeCellsEditable this settings t).2.listeners = t.listeners ++ [extend defaults settings] ∧
    (MakeCellsEditable this settings t).2.data = t.data ∧
    (MakeCellsEditable this settings t).2.content = t.content ∧
    (MakeCellsEditable this settings t).2.controls = t.controls ∧
    (MakeCellsEditable this settings t).2.focused = t.focused ∧
    (MakeCellsEditable this settings t).2.log = t.log ∧
    (MakeCellsEditable this settings t).2.render = t.render :=
  ⟨rfl, rfl, rfl, rfl, rfl, rfl, rfl, rfl⟩

/-- C5 (no-config default): after attaching with an empty configuration to a table without
other listeners, a click on any cell that shows rendered content, whatever its column,
begins an edit: the cell's content becomes exactly one new control, no factory call is
logged, and that control is an `input` of type `text` whose value is the cell's current data
value and whose classes are those of the default string `'form-control input-sm'`. -/
theorem no_config_default (this : JQuery) (c : Cell) (t : Table)
    (hl : t.listeners = []) (hd : Display t c) :
    (run [Action.attach this {}, Action.click c] t).content c
      = [Node.control t.controls.length] ∧
    Editing (run [Action.attach this {}, Action.click c] t) c ∧
    (run [Action.attach this {}, Action.click c] t).controls.length = t.controls.length + 1 ∧
    ((run [Action.attach this {}, Action.click c] t).controls[t.controls.length]?).map
        (fun ctl => ctl.elem)
      = some { tag := "input", type := "text", value := t.data c,
               classes := ["form-control", "input-sm"] } ∧
    (run [Action.attach this {}, Action.click c] t).log = t.log := by
  have hrun : run [Action.attach this {}, Action.click c] t
      = clickHandler (extend defaults {}) c (MakeCellsEditable this {} t).2 := by
    simp [run, step, MakeCellsEditable, hl]
  have hd1 : Display (MakeCellsEditable this {} t).2 c := hd
  have hcol : notEditable (extend defaults {}) c.index.column = false := rfl
  rw [hrun, clickHandler_display _ c _ hcol hd1]
  refine ⟨?_, ⟨t.controls.length, ?_, ?_⟩, ?_, ?_, ?_⟩
  · simp [MakeCellsEditable]
  · simp [MakeCellsEditable]
  · simp [MakeCellsEditable]
  · simp [MakeCellsEditable]
  · simp only [MakeCellsEditable, getElem?_append_last, Option.map_some']
    rfl
  · simp [MakeCellsEditable, factoryCalls, extend, defaults]

theorem no_config_default_witness :
    (run [Action.attach { selector := "#tbl" } {}, Action.click cellB] freshTable).content cellB
      = [Node.control 0] ∧
    ((run [Action.attach { selector := "#tbl" } {}, Action.click cellB] freshTable).controls[0]?).map
        (fun ctl => ctl.elem)
      = some { tag := "input", type := "text", value := "z",
               classes := ["form-control", "input-sm"] } :=
  have h := no_config_default { selector := "#tbl" } cellB freshTable rfl
    (by intro id hmem; simp [freshTable, initial] at hmem)
  ⟨h.1, h.2.2.2.1⟩

/-- C6 (editor factory): when `getEditor` is configured and a click begins an edit (the
column is editable and the cell holds no `input` or `select`), the factory is called exactly
once, with `(current data value, cell, column index)`; the cell's content becomes exactly the
control made from the element the factory returned; that control has the focus; and it
carries the configured class string, added by the same `addClass` step that the default text
input goes through when no factory is configured. -/
theorem editor_factory (opts : Opts) (getEditor : Value → Cell → Nat → Element) (c : Cell)
    (t : Table) (hg : opts.getEditor = some getEditor)
    (hcol : notEditable opts c.index.column = false) (hfind : find t c = []) :
    (clickHandler opts c t).log = t.log ++ [Call.getEditor (t.data c) c c.index.column] ∧
    (clickHandler opts c t).content c = [Node.control t.controls.length] ∧
    (clickHandler opts c t).controls.length = t.controls.length + 1 ∧
    ((clickHandler opts c t).controls[t.controls.length]?).map (fun ctl => ctl.elem)
      = some ((getEditor (t.data c) c c.index.column).addClass opts.inputCss) ∧
    (clickHandler opts c t).focused = some t.controls.length ∧
    ((clickHandler { opts with getEditor := none } c t).controls[t.controls.length]?).map
        (fun ctl => ctl.elem)
      = some ((inputText.setVal (t.data c)).addClass opts.inputCss) := by
  have hcol0 : notEditable { opts with getEditor := none } c.index.column = false := hcol
  have hlen : t.controls.length = (cleanData (t.content c) t.controls 0).length :=
    (cleanData_length _ _ _).symm
  rw [clickHandler_begin opts c t hcol hfind, clickHandler_begin _ c t hcol0 hfind]
  refine ⟨?_, ?_, ?_, ?_, ?_, ?_⟩
  · simp [factoryCalls, hg]
  · simp
  · simp [cleanData_length]
  · simp only []
    rw [hlen, getElem?_append_last]
    simp [editorElement, hg]
  · rfl
  · simp only []
    rw [hlen, getElem?_append_last]
    simp [editorElement]

theorem editor_factory_witness :
    (clickHandler (extend defaults textareaSettings) cellA freshTable).log
      = [Call.getEditor "a" cellA 1] ∧
    (clickHandler (extend defaults textareaSettings) cellA freshTable).content cellA
      = [Node.control 0] ∧
    ((clickHandler (extend defaults textareaSettings) cellA freshTable).controls[0]?).map
        (fun ctl => ctl.elem)
      = some { tag := "textarea", type := "", value := "a",
               classes := ["form-control", "input-sm"] } ∧
    (clickHandler (extend defaults textareaSettings) cellA freshTable).focused = some 0 :=
  have h := editor_factory (extend defaults textareaSettings) textareaFactory cellA freshTable
    rfl rfl rfl
  ⟨h.1, h.2.1, h.2.2.2.1, h.2.2.2.2.1⟩

/-- C9 (attaching twice): after attaching the same settings (without an editor factory)
twice to a table without other listeners, two listeners are registered; a click on an
editable cell that shows rendered content runs both in registration order, the second being
a no-op because it finds the text input the first one created; the cell then holds exactly
one editor, with exactly one commit listener bound, and after setting its value to `v2` a
blur leaves the data value `v2` and logs exactly one `onUpdate` call (none when no callback
is configured). -/
theorem attach_twice (this : JQuery) (settings : Settings) (c : Cell) (t : Table) (v2 : Value)
    (hg : settings.getEditor = none) (hl : t.listeners = [])
    (hcol : notEditable (extend defaults settings) c.index.column = false)
    (hd : Display t c) :
    (attachTwice this settings t).listeners
      = [extend defaults settings, extend defaults settings] ∧
    step (Action.click c) (attachTwice this settings t)
      = clickHandler (extend defaults settings) c
          (clickHandler (extend defaults settings) c (attachTwice this settings t)) ∧
    clickHandler (extend defaults settings) c
        (clickHandler (extend defaults settings) c (attachTwice this settings t))
      = clickHandler (extend defaults settings) c (attachTwice this settings t) ∧
    editorCount (step (Action.click c) (attachTwice this settings t)) c = 1 ∧
    (step (Action.click c) (attachTwice this settings t)).controls.length
      = t.controls.length + 1 ∧
    handlersOf (step (Action.click c) (attachTwice this settings t)) t.controls.length
      = [handlerFor (extend defaults settings) c t] ∧
    (run [Action.click c, Action.type t.controls.length v2, Action.blur t.controls.length]
        (attachTwice this settings t)).data c = v2 ∧
    (∀ fn, (extend defaults settings).onUpdate = some fn →
      (run [Action.click c, Action.type t.controls.length v2, Action.blur t.controls.length]
          (attachTwice this settings t)).log
        = t.log ++ [Call.onUpdate fn c c.index.row c.index.column (t.data c) v2]) ∧
    ((extend defaults settings).onUpdate = none →
      (run [Action.click c, Action.type t.controls.length v2, Action.blur t.controls.length]
          (attachTwice this settings t)).log = t.log) := by
  have hT : attachTwice this settings t
      = { t with listeners := [extend defaults settings, extend defaults settings] } := by
    simp [attachTwice, run, step, MakeCellsEditable, hl]
  have hd2 : Display (attachTwice this settings t) c := by
    rw [hT]
    exact hd
  have hgo : (extend defaults settings).getEditor = none := by
    simp [extend, hg, defaults]
  have hfirst : clickHandler (extend defaults settings) c (attachTwice this settings t)
      = beginEdit (extend defaults settings) c (attachTwice this settings t) :=
    clickHandler_eq_beginEdit _ c _ hcol (find_eq_nil_of_display _ c hd2)
  have hfound : find (beginEdit (extend defaults settings) c (attachTwice this settings t)) c
      ≠ [] := by
    rw [find_beginEdit_of_tag]
    · simp
    · left
      simp [editorElement, hgo, Element.setVal, inputText]
  have hsecond : clickHandler (extend defaults settings) c
      (clickHandler (extend defaults settings) c (attachTwice this settings t))
      = clickHandler (extend defaults settings) c (attachTwice this settings t) := by
    rw [hfirst]
    exact clickHandler_of_find _ c _ hfound
  have hstep : step (Action.click c) (attachTwice this settings t)
      = clickHandler (extend defaults settings) c
          (clickHandler (extend defaults settings) c (attachTwice this settings t)) := by
    rw [hT]
    simp [step]
  have hrun : run [Action.click c, Action.type t.controls.length v2,
      Action.blur t.controls.length] (attachTwice this settings t)
      = run [Action.type t.controls.length v2, Action.blur t.controls.length]
          (step (Action.click c) (attachTwice this settings t)) := rfl
  have hclosed : step (Action.click c) (attachTwice this settings t)
      = { t with
          listeners := [extend defaults settings, extend defaults settings]
          content := fun x => if x = c then [Node.control t.controls.length] else t.content x
          controls := t.controls ++
            [{ elem := (editorElement (extend defaults settings) (t.data c) c).addClass
                 (extend defaults settings).inputCss
               handlers := [handlerFor (extend defaults settings) c t] }]
          focused := some t.controls.length
          log := t.log ++ factoryCalls (extend defaults settings) (t.data c) c } := by
    rw [hstep, hsecond, clickHandler_display _ c _ hcol hd2, hT]
    rfl
  refine ⟨by rw [hT], hstep, hsecond, ?_, ?_, ?_, ?_, ?_, ?_⟩
  · rw [hclosed]
    simp [editorCount]
  · rw [hclosed]
    simp
  · rw [hclosed]
    simp [handlersOf]
  · rw [hrun, hclosed, type_blur_last t.controls _ (handlerFor (extend defaults settings) c t)
      v2 _ rfl rfl]
    simp [handlerFor]
  · intro fn hfn
    rw [hrun, hclosed, type_blur_last t.controls _ (handlerFor (extend defaults settings) c t)
      v2 _ rfl rfl]
    simp [updateCalls, handlerFor, hfn, factoryCalls, hgo]
  · intro hnone
    rw [hrun, hclosed, type_blur_last t.controls _ (handlerFor (extend defaults settings) c t)
      v2 _ rfl rfl]
    simp [updateCalls, handlerFor, hnone, factoryCalls, hgo]

theorem attach_twice_witness :
    editorCount (step (Action.click cellA)
      (attachTwice { selector := "#tbl" } notifySettings freshTable)) cellA = 1 ∧
    (run [Action.click cellA, Action.type 0 "b", Action.blur 0]
        (attachTwice { selector := "#tbl" } notifySettings freshTable)).data cellA = "b" ∧
    (run [Action.click cellA, Action.type 0 "b", Action.blur 0]
        (attachTwice { selector := "#tbl" } notifySettings freshTable)).log
      = [Call.onUpdate 7 cellA 0 1 "a" "b"] :=
  have h := attach_twice { selector := "#tbl" } notifySettings cellA freshTable "b" rfl rfl rfl
    (by intro id hmem; simp [freshTable, initial] at hmem)
  ⟨h.2.2.2.1, h.2.2.2.2.2.2.1, h.2.2.2.2.2.2.2.1 7 rfl⟩

/-- C10 (unguarded commit, captured old value): every blur or Enter event that reaches a
commit listener writes the editor's current value to the listener's cell and, with `onUpdate`
configured, logs one call whose old value is the one the listener captured; the listener a
click binds captures the data value read at that click; hence after a click, setting the
editor's value to `v1`, an Enter and then a blur on the same control log two `onUpdate`
calls, both carrying the click-time old value, the second not the `v1` written by the
first. -/
theorem commit_unguarded (opts : Opts) (fn : FnId) (c : Cell) (t : Table) (v1 : Value)
    (h : Handler) (u : Table) (e : Event)
    (hl : t.listeners = [opts]) (hcol : notEditable opts c.index.column = false)
    (hd : Display t c) (hfn : opts.onUpdate = some fn) (hh : h.opts.onUpdate = some fn)
    (he : e.type = EventType.blur ∨ e.which = 13) :
    (commitHandler h e u).data h.cell = val h.editor u ∧
    (commitHandler h e u).log
      = u.log ++ [Call.onUpdate fn h.cell h.cell.index.row h.colIdx h.oldValue (val h.editor u)] ∧
    handlersOf (step (Action.click c) t) t.controls.length = [handlerFor opts c t] ∧
    (handlerFor opts c t).oldValue = t.data c ∧
    (run [Action.click c, Action.type t.controls.length v1, Action.keydown t.controls.length 13,
        Action.blur t.controls.length] t).data c = v1 ∧
    (run [Action.click c, Action.type t.controls.length v1, Action.keydown t.controls.length 13,
        Action.blur t.controls.length] t).log
      = (step (Action.click c) t).log
          ++ [Call.onUpdate fn c c.index.row c.index.column (t.data c) v1,
              Call.onUpdate fn c c.index.row c.index.column (t.data c) v1] := by
  have hev : ¬ (e.type = EventType.keydown ∧ e.which ≠ 13) := by
    rintro ⟨h1, h2⟩
    rcases he with h3 | h3
    · rw [h3] at h1
      exact absurd h1 (by decide)
    · exact h2 h3
  have hclick : step (Action.click c) t = clickHandler opts c t := by
    simp [step, hl]
  have hrun : run [Action.click c, Action.type t.controls.length v1,
      Action.keydown t.controls.length 13, Action.blur t.controls.length] t
      = run [Action.type t.controls.length v1, Action.keydown t.controls.length 13,
          Action.blur t.controls.length] (step (Action.click c) t) := rfl
  rw [hrun, hclick, clickHandler_display opts c t hcol hd,
    type_enter_blur_last t.controls _ (handlerFor opts c t) v1 _ rfl rfl,
    commitHandler_commit h e u hev]
  refine ⟨?_, ?_, ?_, rfl, ?_, ?_⟩
  · simp
  · simp [updateCalls, hh]
  · simp [handlersOf]
  · simp [handlerFor]
  · simp [updateCalls, handlerFor, hfn]

theorem commit_unguarded_witness :
    (run [Action.click cellA, Action.type 0 "b", Action.keydown 0 13, Action.blur 0]
        notifyTable).log
      = [Call.onUpdate 7 cellA 0 1 "a" "b", Call.onUpdate 7 cellA 0 1 "a" "b"] :=
  (commit_unguarded (extend defaults notifySettings) 7 cellA notifyTable "b"
    (handlerFor (extend defaults notifySettings) cellA notifyTable) notifyTable
    { type := EventType.blur, which := 0 } rfl rfl
    (by intro id hmem; simp [notifyTable, MakeCellsEditable, freshTable, initial] at hmem)
    rfl rfl (Or.inl rfl)).2.2.2.2.2

/-- C3 (idempotent re-click) at the failing input: with an editor factory that returns a
text area, the cell is in Editing state after the first click and its editor holds the typed
value `"b"`; a further click on the cell creates a second control, calls the factory a second
time, and leaves the cell holding the new control with the old data value `"a"`, the typed
value being gone from the cell. -/
theorem reclick_textarea_second_editor :
    Editing textareaOpen cellA ∧
    textareaOpen.controls.length = 1 ∧
    textareaOpen.content cellA = [Node.control 0] ∧
    val 0 textareaOpen = "b" ∧
    textareaOpen.log = [Call.getEditor "a" cellA 1] ∧
    (step (Action.click cellA) textareaOpen).controls.length = 2 ∧
    (step (Action.click cellA) textareaOpen).log
      = [Call.getEditor "a" cellA 1, Call.getEditor "a" cellA 1] ∧
    (step (Action.click cellA) textareaOpen).content cellA = [Node.control 1] ∧
    val 1 (step (Action.click cellA) textareaOpen) = "a" :=
  ⟨⟨0, by decide, by decide⟩, rfl, rfl, rfl, rfl, rfl, rfl, rfl, rfl⟩

/-- C7 as stated fails: while the editor open in `cellB` holds the input focus and the typed
value `"q"`, a click on the distinct cell `cellA` moves the focus to the new editor, the blur
listener of `cellB` runs inside that click, and `cellB` ends with data value `"q"` instead of
`"z"`, re-rendered content instead of its editor, and one `onUpdate` call logged. -/
theorem click_commits_focused_neighbour :
    cellA ≠ cellB ∧
    Editing neighbourOpen cellB ∧
    neighbourOpen.data cellB = "z" ∧
    (clickTakingFocus cellA neighbourOpen).data cellB = "q" ∧
    (clickTakingFocus cellA neighbourOpen).data cellB ≠ neighbourOpen.data cellB ∧
    neighbourOpen.content cellB = [Node.control 0] ∧
    (clickTakingFocus cellA neighbourOpen).content cellB = [Node.text "q"] ∧
    ¬ Editing (clickTakingFocus cellA neighbourOpen) cellB ∧
    (clickTakingFocus cellA neighbourOpen).log = [Call.onUpdate 7 cellB 2 0 "z" "q"] := by
  refine ⟨by decide, ⟨0, by decide, by decide⟩, rfl, rfl, by decide, rfl, rfl, ?_, rfl⟩
  rintro ⟨id, hmem, _⟩
  have hc : (clickTakingFocus cellA neighbourOpen).content cellB = [Node.text "q"] := rfl
  rw [hc] at hmem
  simp at hmem

/-- C7, amended (cell independence): for two distinct cells `A` and `B`, a click on `A`,
delivered to whatever listeners are registered and with the focus change of `editor.focus()`
carried out in full, leaves `B`'s data value, `B`'s content, the element (value included) of
every existing control and `B`'s Editing state as they were, provided the control holding the
input focus, if any, has no commit listener bound for `B`; and delivering a blur or key event
to an editor whose commit listeners were bound for `A` leaves `B`'s data value, `B`'s content,
every control and `B`'s Editing state as they were: the write and the re-render touch cell `A`
only. -/
theorem cell_independence (A B : Cell) (t u : Table) (editor : Nat) (e : Event) (hAB : A ≠ B)
    (hwf : ∀ id, Node.control id ∈ t.content B → id < t.controls.length)
    (hfocus : ∀ old, t.focused = some old → ∀ h ∈ handlersOf t old, h.cell ≠ B)
    (hA : ∀ h ∈ handlersOf u editor, h.cell = A) :
    (clickTakingFocus A t).data B = t.data B ∧
    (clickTakingFocus A t).content B = t.content B ∧
    (∀ id, id < t.controls.length →
      ((clickTakingFocus A t).controls[id]?).map (fun ctl => ctl.elem)
        = (t.controls[id]?).map (fun ctl => ctl.elem)) ∧
    (Editing (clickTakingFocus A t) B ↔ Editing t B) ∧
    (dispatch editor e u).data B = u.data B ∧
    (dispatch editor e u).content B = u.content B ∧
    (dispatch editor e u).controls = u.controls ∧
    (Editing (dispatch editor e u) B ↔ Editing u B) := by
  have hclick : KeepsCell B t (clickTakingFocus A t) :=
    click_foldl_keeps A B hAB t.listeners t hfocus
  have hcommit : CommitFrame A u (dispatch editor e u) :=
    commit_foldl_frame A e (handlersOf u editor) hA u
  obtain ⟨c1, c2, c3, c4⟩ := hclick
  obtain ⟨d1, _, _, _, d5⟩ := hcommit
  have hBA : B ≠ A := fun h => hAB h.symm
  refine ⟨c1, c2, c4, ?_, (d5 B hBA).1, (d5 B hBA).2, d1, ?_⟩
  · unfold Editing
    rw [c2]
    constructor
    · rintro ⟨id, hmem, _⟩
      exact ⟨id, hmem, hwf id hmem⟩
    · rintro ⟨id, hmem, hlt⟩
      exact ⟨id, hmem, lt_of_lt_of_le hlt c3⟩
  · unfold Editing
    rw [(d5 B hBA).2, d1]

theorem cell_independence_witness :
    (clickTakingFocus cellA (clickTakingFocus cellC notifyTable)).data cellB = "z" ∧
    (clickTakingFocus cellA (clickTakingFocus cellC notifyTable)).content cellB
      = [Node.text "z"] ∧
    (dispatch 0 blurEvent (step (Action.type 0 "r") (clickTakingFocus cellA notifyTable))).data
        cellB = "z" ∧
    (dispatch 0 blurEvent (step (Action.type 0 "r") (clickTakingFocus cellA notifyTable))).content
        cellB = [Node.text "z"] :=
  have h := cell_independence cellA cellB (clickTakingFocus cellC notifyTable)
    (step (Action.type 0 "r") (clickTakingFocus cellA notifyTable)) 0 blurEvent (by decide)
    (by
      intro id hmem
      have hc : (clickTakingFocus cellC notifyTable).content cellB = [Node.text "z"] := rfl
      rw [hc] at hmem
      simp at hmem)
    (by
      intro old hold hd hmem
      have hf : (clickTakingFocus cellC notifyTable).focused = some 0 := rfl
      rw [hf] at hold
      have hold1 : old = 0 := (Option.some.inj hold).symm
      have hs : handlersOf (clickTakingFocus cellC notifyTable) 0
          = [{ opts := extend defaults notifySettings, cell := cellC, colIdx := 1,
               oldValue := "z", editor := 0 }] := rfl
      rw [hold1, hs] at hmem
      simp only [List.mem_singleton] at hmem
      rw [hmem]
      decide)
    (by
      intro hd hmem
      have hs : handlersOf (step (Action.type 0 "r") (clickTakingFocus cellA notifyTable)) 0
          = [{ opts := extend defaults notifySettings, cell := cellA, colIdx := 1,
               oldValue := "a", editor := 0 }] := rfl
      rw [hs] at hmem
      simp only [List.mem_singleton] at hmem
      rw [hmem])
  ⟨h.1, h.2.1, h.2.2.2.2.1, h.2.2.2.2.2.1⟩

end CellEdit
